import Mathlib

/-!
Verification of the Darwin push-port client (`src/lib/darwin.js`).

The development shallowly embeds the module's core:

* `Json` — the acyclic structured values flowing through the pipeline
  (trees produced by the XML-to-structure collaborator and consumed by
  `JSON.stringify` / `JSON.parse`);
* `stringifyJson` — `JSON.stringify` on such trees (no spacing, insertion
  order, `"` and backslash escaped; control-character escapes are omitted
  as no key or marker involved contains them, and the parser below mirrors
  the same convention so the pair is self-consistent);
* `replaceLoc` / `replaceNs` — the two global regex replacements of
  `replaceKeys` (`/"ns3:Location"/g → "locations"` and `/"ns\d:/g → "`),
  modelled as left-to-right scanners over the serialized character list,
  exactly as a global, non-overlapping, non-rescanning regex replace works;
* `parseJson` — `JSON.parse` (fuel-based recursive descent, later duplicate
  keys overwriting earlier ones in place as in JavaScript);
* `replaceKeys` — the serialize / replace / replace / deserialize pipeline;
* `getMessage` — the classifier, with JavaScript property-access semantics
  (`a.b` throws on `undefined`/`null` bases, yields `undefined` on absent
  keys) and the five external domain constructors kept opaque as function
  parameters that may fail;
* the per-message stream handler wired up by `connect` (gunzip error and
  end events, the `try`/`catch` boundary, the `messageErr` event) and the
  subscription callback.
-/

/-- JSON-compatible trees as they flow through this pipeline: the
XML-to-structure collaborator (configured with string coercion) produces
strings, arrays and objects, with booleans and null also representable.
Object fields are kept in insertion order, as JavaScript does. -/
inductive Json where
  | null : Json
  | bool (b : Bool) : Json
  | str (s : String) : Json
  | arr (xs : List Json) : Json
  | obj (kvs : List (String × Json)) : Json
deriving Repr

/-- Escape of one character inside a JSON string literal, as
`JSON.stringify` emits it for the characters that can occur here. -/
def escChar (c : Char) : List Char :=
  if c = '"' then ['\\', '"'] else if c = '\\' then ['\\', '\\'] else [c]

/-- Escape of a string body for a JSON string literal. -/
def escStr (s : List Char) : List Char :=
  (s.map escChar).flatten

mutual

/-- The serialized form `JSON.stringify` produces: no whitespace, object
fields in insertion order. -/
def stringifyJson : Json → List Char
  | .null => ("null").data
  | .bool true => ("true").data
  | .bool false => ("false").data
  | .str s => '"' :: escStr s.data ++ ['"']
  | .arr xs => '[' :: stringifyItems xs ++ [']']
  | .obj kvs => '\x7b' :: stringifyKVs kvs ++ ['\x7d']

/-- Comma-separated serialization of array elements. -/
def stringifyItems : List Json → List Char
  | [] => []
  | [x] => stringifyJson x
  | x :: y :: rest => stringifyJson x ++ ',' :: stringifyItems (y :: rest)

/-- Comma-separated serialization of object fields. -/
def stringifyKVs : List (String × Json) → List Char
  | [] => []
  | [(k, v)] => '"' :: escStr k.data ++ '"' :: ':' :: stringifyJson v
  | (k, v) :: p :: rest =>
      ('"' :: escStr k.data ++ '"' :: ':' :: stringifyJson v) ++ ',' :: stringifyKVs (p :: rest)

end

/-- A string is plain when it contains neither a double quote nor a
backslash, so its serialized body is itself. -/
def plainStr (s : String) : Bool :=
  s.data.all (fun c => !(c = '"') && !(c = '\\'))

mutual

/-- Every string atom (key or value) of the tree is plain. -/
def plainJson : Json → Bool
  | .null => true
  | .bool _ => true
  | .str s => plainStr s
  | .arr xs => plainItems xs
  | .obj kvs => plainKVs kvs

/-- Plainness of a list of array elements. -/
def plainItems : List Json → Bool
  | [] => true
  | x :: rest => plainJson x && plainItems rest

/-- Plainness of a list of object fields. -/
def plainKVs : List (String × Json) → Bool
  | [] => true
  | (k, v) :: rest => plainStr k && plainJson v && plainKVs rest

end

/-- Keys of an object field list are pairwise distinct (each key differs
from every later one). -/
def keysFresh : List (String × Json) → Bool
  | [] => true
  | (k, _) :: rest => rest.all (fun p => !(p.1 == k)) && keysFresh rest

mutual

/-- Every object in the tree has pairwise distinct keys. -/
def nodupJson : Json → Bool
  | .null => true
  | .bool _ => true
  | .str _ => true
  | .arr xs => nodupItems xs
  | .obj kvs => keysFresh kvs && nodupKVs kvs

/-- Key distinctness for array elements. -/
def nodupItems : List Json → Bool
  | [] => true
  | x :: rest => nodupJson x && nodupItems rest

/-- Key distinctness for object field values. -/
def nodupKVs : List (String × Json) → Bool
  | [] => true
  | (_, v) :: rest => nodupJson v && nodupKVs rest

end

/-- Body of the reserved Location marker, `ns3:Location`. -/
def locMid : List Char :=
  ['n', 's', '3', ':', 'L', 'o', 'c', 'a', 't', 'i', 'o', 'n']

/-- The full quoted pattern of `/"ns3:Location"/g`. -/
def locPat : List Char := '"' :: locMid ++ ['"']

/-- The quoted replacement `"locations"`. -/
def locRep : List Char :=
  ['"', 'l', 'o', 'c', 'a', 't', 'i', 'o', 'n', 's', '"']

/-- A match of `/"ns3:Location"/` at the head of the text. -/
def locMatch (s : List Char) : Bool := List.isPrefixOf locPat s

/-- A match of `/"ns\d:/` at the head of the text. -/
def nsMatch : List Char → Bool
  | c0 :: c1 :: c2 :: c3 :: c4 :: _ =>
      c0 = '"' && c1 = 'n' && c2 = 's' && c3.isDigit && c4 = ':'
  | _ => false

/-- Fueled left-to-right scan performing the global replacement of
`"ns3:Location"` by `"locations"`; a global regex replace finds
non-overlapping matches left to right in the original text and does not
rescan replacement text. One character is consumed per step, so fuel equal
to the length suffices. -/
def scanLoc : Nat → List Char → List Char
  | 0, s => s
  | _ + 1, [] => []
  | f + 1, c :: cs =>
      if locMatch (c :: cs) then locRep ++ scanLoc f (cs.drop 13)
      else c :: scanLoc f cs

/-- The first replacement of `replaceKeys`. -/
def replaceLoc (s : List Char) : List Char := scanLoc s.length s

/-- Fueled left-to-right scan performing the global replacement of
`"ns` digit `:` by `"`. -/
def scanNs : Nat → List Char → List Char
  | 0, s => s
  | _ + 1, [] => []
  | f + 1, c :: cs =>
      if nsMatch (c :: cs) then '"' :: scanNs f (cs.drop 4)
      else c :: scanNs f cs

/-- The second replacement of `replaceKeys`. -/
def replaceNs (s : List Char) : List Char := scanNs s.length s

/-- Reading a JSON string literal body up to its closing quote, with the
two escapes the serializer emits; the accumulator is reversed on exit. -/
def parseLit (acc : List Char) : List Char → Option (String × List Char)
  | [] => none
  | c :: r =>
      if c = '"' then some (String.mk acc.reverse, r)
      else if c = '\\' then
        match r with
        | [] => none
        | c2 :: r2 => if c2 = '"' || c2 = '\\' then parseLit (c2 :: acc) r2 else none
      else parseLit (c :: acc) r

/-- JavaScript object construction: assigning to an existing key overwrites
its value in place, a fresh key is appended. -/
def insertKV : List (String × Json) → String → Json → List (String × Json)
  | [], k, v => [(k, v)]
  | (k0, v0) :: rest, k, v =>
      if k0 = k then (k0, v) :: rest else (k0, v0) :: insertKV rest k v

mutual

/-- Fuel-based recursive descent for `JSON.parse` on the whitespace-free
texts the pipeline produces, returning the value and the unconsumed rest. -/
def parseVal : Nat → List Char → Option (Json × List Char)
  | 0, _ => none
  | _ + 1, 'n' :: 'u' :: 'l' :: 'l' :: r => some (.null, r)
  | _ + 1, 't' :: 'r' :: 'u' :: 'e' :: r => some (.bool true, r)
  | _ + 1, 'f' :: 'a' :: 'l' :: 's' :: 'e' :: r => some (.bool false, r)
  | _ + 1, '"' :: r => (parseLit [] r).map (fun p => (.str p.1, p.2))
  | f + 1, '[' :: r => parseArrTail f r
  | f + 1, '\x7b' :: r => parseObjTail f r
  | _ + 1, _ => none

/-- Rest of an array after the opening bracket: empty array or elements. -/
def parseArrTail : Nat → List Char → Option (Json × List Char)
  | 0, _ => none
  | _ + 1, ']' :: r2 => some (.arr [], r2)
  | f + 1, r => (parseItems f r).map (fun p => (.arr p.1, p.2))

/-- Rest of an object after the opening brace: empty object or fields. -/
def parseObjTail : Nat → List Char → Option (Json × List Char)
  | 0, _ => none
  | _ + 1, '\x7d' :: r2 => some (.obj [], r2)
  | f + 1, r => (parseKVs f [] r).map (fun p => (.obj p.1, p.2))

/-- One or more comma-separated array elements up to the closing bracket. -/
def parseItems : Nat → List Char → Option (List Json × List Char)
  | 0, _ => none
  | f + 1, s =>
      match parseVal f s with
      | none => none
      | some (v, r) =>
          match r with
          | ',' :: r2 => (parseItems f r2).map (fun p => (v :: p.1, p.2))
          | ']' :: r2 => some ([v], r2)
          | _ => none

/-- One or more comma-separated object fields up to the closing brace,
accumulated with JavaScript's overwriting assignment. -/
def parseKVs : Nat → List (String × Json) → List Char → Option (List (String × Json) × List Char)
  | 0, _, _ => none
  | f + 1, acc, s =>
      match s with
      | '"' :: r =>
          (parseLit [] r).bind (fun kp =>
            match kp.2 with
            | ':' :: r3 =>
                (parseVal f r3).bind (fun vp =>
                  match vp.2 with
                  | ',' :: r5 => parseKVs f (insertKV acc kp.1 vp.1) r5
                  | '\x7d' :: r5 => some (insertKV acc kp.1 vp.1, r5)
                  | _ => none)
            | _ => none)
      | _ => none

end

/-- Full-input `JSON.parse`; the fuel is an artifact of the embedding and
generously covers the recursion depth of any input of this length. -/
def parseJson (s : List Char) : Option Json :=
  match parseVal (2 * s.length + 2) s with
  | some (v, []) => some v
  | _ => none

/-- The Transform Layer `replaceKeys` of `darwin.js`: serialize, apply the
two global replacements `/"ns3:Location"/g → "locations"` and
`/"ns\d:/g → "`, and deserialize. `JSON.parse` failure is represented by
`none`. -/
def replaceKeys (j : Json) : Option Json :=
  parseJson (replaceNs (replaceLoc (stringifyJson j)))

/-- Token-level effect of the first replacement on one string atom: a key
or string value whose text is exactly `ns3:Location` becomes `locations`. -/
def rwTok1 (s : String) : String :=
  if s = "ns3:Location" then "locations" else s

/-- Stripping a leading `ns` digit `:` from a character list. -/
def nsStripL (s : List Char) : List Char :=
  match s with
  | c1 :: c2 :: c3 :: c4 :: r =>
      if c1 = 'n' && c2 = 's' && c3.isDigit && c4 = ':' then r else s
  | _ => s

/-- Token-level effect of the second replacement on one string atom. -/
def rwTok2 (s : String) : String := String.mk (nsStripL s.data)

mutual

/-- Tree-level effect of the first replacement: the token rewrite applied
to every key and every string value, at every depth. -/
def rwLoc : Json → Json
  | .null => .null
  | .bool b => .bool b
  | .str s => .str (rwTok1 s)
  | .arr xs => .arr (rwLocItems xs)
  | .obj kvs => .obj (rwLocKVs kvs)

/-- First-replacement rewrite of array elements. -/
def rwLocItems : List Json → List Json
  | [] => []
  | x :: rest => rwLoc x :: rwLocItems rest

/-- First-replacement rewrite of object fields. -/
def rwLocKVs : List (String × Json) → List (String × Json)
  | [] => []
  | (k, v) :: rest => (rwTok1 k, rwLoc v) :: rwLocKVs rest

end

mutual

/-- Tree-level effect of the second replacement: the leading namespace
prefix stripped from every key and every string value, at every depth. -/
def rwNs : Json → Json
  | .null => .null
  | .bool b => .bool b
  | .str s => .str (rwTok2 s)
  | .arr xs => .arr (rwNsItems xs)
  | .obj kvs => .obj (rwNsKVs kvs)

/-- Second-replacement rewrite of array elements. -/
def rwNsItems : List Json → List Json
  | [] => []
  | x :: rest => rwNs x :: rwNsItems rest

/-- Second-replacement rewrite of object fields. -/
def rwNsKVs : List (String × Json) → List (String × Json)
  | [] => []
  | (k, v) :: rest => (rwTok2 k, rwNs v) :: rwNsKVs rest

end

/-- The composed tree-level rewrite implemented by `replaceKeys`. -/
def rewriteTree (j : Json) : Json := rwNs (rwLoc j)

/-- Characters that can follow a completed serialized value or key inside
a serialized tree (or the end of input). -/
def sepStart : List Char → Bool
  | [] => true
  | c :: _ => c = ',' || c = ':' || c = '\x7d' || c = ']'

theorem scanLoc_nil (f : Nat) : scanLoc f [] = [] := by
  cases f <;> rfl

theorem scanNs_nil (f : Nat) : scanNs f [] = [] := by
  cases f <;> rfl

theorem scanLoc_fuel (f g : Nat) (s : List Char) (hf : s.length ≤ f) (hg : s.length ≤ g) :
    scanLoc f s = scanLoc g s := by
  induction f generalizing g s with
  | zero =>
      have : s = [] := List.length_eq_zero.mp (Nat.le_zero.mp hf)
      subst this
      simp [scanLoc_nil]
  | succ f ih =>
      cases s with
      | nil => simp [scanLoc_nil]
      | cons c cs =>
          cases g with
          | zero => simp at hg
          | succ g =>
              simp only [List.length_cons] at hf hg
              simp only [scanLoc]
              by_cases h : locMatch (c :: cs) = true
              · rw [if_pos h, if_pos h]
                have hf' : (cs.drop 13).length ≤ f := by
                  simp only [List.length_drop]; omega
                have hg' : (cs.drop 13).length ≤ g := by
                  simp only [List.length_drop]; omega
                rw [ih _ _ hf' hg']
              · rw [if_neg h, if_neg h]
                rw [ih g cs (by omega) (by omega)]

theorem scanNs_fuel (f g : Nat) (s : List Char) (hf : s.length ≤ f) (hg : s.length ≤ g) :
    scanNs f s = scanNs g s := by
  induction f generalizing g s with
  | zero =>
      have : s = [] := List.length_eq_zero.mp (Nat.le_zero.mp hf)
      subst this
      simp [scanNs_nil]
  | succ f ih =>
      cases s with
      | nil => simp [scanNs_nil]
      | cons c cs =>
          cases g with
          | zero => simp at hg
          | succ g =>
              simp only [List.length_cons] at hf hg
              simp only [scanNs]
              by_cases h : nsMatch (c :: cs) = true
              · rw [if_pos h, if_pos h]
                have hf' : (cs.drop 4).length ≤ f := by
                  simp only [List.length_drop]; omega
                have hg' : (cs.drop 4).length ≤ g := by
                  simp only [List.length_drop]; omega
                rw [ih _ _ hf' hg']
              · rw [if_neg h, if_neg h]
                rw [ih g cs (by omega) (by omega)]

theorem replaceLoc_nil : replaceLoc [] = [] := rfl

theorem replaceNs_nil : replaceNs [] = [] := rfl

theorem replaceLoc_cons_match (c : Char) (cs : List Char) (h : locMatch (c :: cs) = true) :
    replaceLoc (c :: cs) = locRep ++ replaceLoc (cs.drop 13) := by
  unfold replaceLoc
  simp only [List.length_cons, scanLoc]
  rw [if_pos h]
  congr 1
  exact scanLoc_fuel _ _ _ (by simp only [List.length_drop]; omega) (le_refl _)

theorem replaceLoc_cons_nomatch (c : Char) (cs : List Char) (h : locMatch (c :: cs) = false) :
    replaceLoc (c :: cs) = c :: replaceLoc cs := by
  unfold replaceLoc
  simp only [List.length_cons, scanLoc]
  rw [if_neg (by simp [h])]

theorem replaceNs_cons_match (c : Char) (cs : List Char) (h : nsMatch (c :: cs) = true) :
    replaceNs (c :: cs) = '"' :: replaceNs (cs.drop 4) := by
  unfold replaceNs
  simp only [List.length_cons, scanNs]
  rw [if_pos h]
  congr 1
  exact scanNs_fuel _ _ _ (by simp only [List.length_drop]; omega) (le_refl _)

theorem replaceNs_cons_nomatch (c : Char) (cs : List Char) (h : nsMatch (c :: cs) = false) :
    replaceNs (c :: cs) = c :: replaceNs cs := by
  unfold replaceNs
  simp only [List.length_cons, scanNs]
  rw [if_neg (by simp [h])]

theorem locMatch_shape (s : List Char) (h : locMatch s = true) : ∃ t, s = locPat ++ t := by
  have hp : locPat <+: s := by
    have h2 : List.isPrefixOf locPat s = true ↔ locPat <+: s := List.isPrefixOf_iff_prefix
    exact h2.mp h
  obtain ⟨t, ht⟩ := hp
  exact ⟨t, ht.symm⟩

theorem nsMatch_shape (s : List Char) (h : nsMatch s = true) :
    ∃ d t, s = '"' :: 'n' :: 's' :: d :: ':' :: t ∧ d.isDigit = true := by
  match s with
  | [] => simp [nsMatch] at h
  | [c0] => simp [nsMatch] at h
  | [c0, c1] => simp [nsMatch] at h
  | [c0, c1, c2] => simp [nsMatch] at h
  | [c0, c1, c2, c3] => simp [nsMatch] at h
  | c0 :: c1 :: c2 :: c3 :: c4 :: t =>
      simp only [nsMatch, Bool.and_eq_true, decide_eq_true_eq] at h
      obtain ⟨⟨⟨⟨h0, h1⟩, h2⟩, h3⟩, h4⟩ := h
      subst h0; subst h1; subst h2; subst h4
      exact ⟨c3, t, rfl, h3⟩

theorem locMatch_head (c : Char) (cs : List Char) (h : ¬c = '"') :
    locMatch (c :: cs) = false := by
  cases hb : locMatch (c :: cs) with
  | false => rfl
  | true =>
      exfalso
      obtain ⟨t, ht⟩ := locMatch_shape _ hb
      simp only [locPat, locMid] at ht
      simp only [List.cons_append, List.cons.injEq] at ht
      exact h ht.1

theorem nsMatch_head (c : Char) (cs : List Char) (h : ¬c = '"') :
    nsMatch (c :: cs) = false := by
  cases hb : nsMatch (c :: cs) with
  | false => rfl
  | true =>
      exfalso
      obtain ⟨d, t, ht, _⟩ := nsMatch_shape _ hb
      simp only [List.cons.injEq] at ht
      exact h ht.1

theorem locMatch_sep (rest : List Char) (hr : sepStart rest = true) :
    locMatch ('"' :: rest) = false := by
  cases hb : locMatch ('"' :: rest) with
  | false => rfl
  | true =>
      exfalso
      obtain ⟨t, ht⟩ := locMatch_shape _ hb
      simp only [locPat, locMid, List.cons_append, List.cons.injEq] at ht
      obtain ⟨-, hrest⟩ := ht
      cases rest with
      | nil => simp at hrest
      | cons c r2 =>
          simp only [List.cons.injEq] at hrest
          simp only [sepStart, Bool.or_eq_true, decide_eq_true_eq] at hr
          rcases hr with ((h1 | h2) | h3) | h4 <;> simp_all

theorem nsMatch_sep (rest : List Char) (hr : sepStart rest = true) :
    nsMatch ('"' :: rest) = false := by
  cases hb : nsMatch ('"' :: rest) with
  | false => rfl
  | true =>
      exfalso
      obtain ⟨d, t, ht, _⟩ := nsMatch_shape _ hb
      simp only [List.cons.injEq] at ht
      obtain ⟨-, hrest⟩ := ht
      cases rest with
      | nil => simp at hrest
      | cons c r2 =>
          simp only [List.cons.injEq] at hrest
          simp only [sepStart, Bool.or_eq_true, decide_eq_true_eq] at hr
          rcases hr with ((h1 | h2) | h3) | h4 <;> simp_all

theorem replaceLoc_pass (s t : List Char) (h : ∀ c ∈ s, ¬c = '"') :
    replaceLoc (s ++ t) = s ++ replaceLoc t := by
  induction s with
  | nil => simp
  | cons c cs ih =>
      rw [List.cons_append,
        replaceLoc_cons_nomatch _ _ (locMatch_head c _ (h c (by simp))),
        ih (fun x hx => h x (by simp [hx]))]
      rfl

theorem replaceNs_pass (s t : List Char) (h : ∀ c ∈ s, ¬c = '"') :
    replaceNs (s ++ t) = s ++ replaceNs t := by
  induction s with
  | nil => simp
  | cons c cs ih =>
      rw [List.cons_append,
        replaceNs_cons_nomatch _ _ (nsMatch_head c _ (h c (by simp))),
        ih (fun x hx => h x (by simp [hx]))]
      rfl

theorem quoted_isPrefix (a b r : List Char) (ha : ∀ c ∈ a, ¬c = '"') (hb : ∀ c ∈ b, ¬c = '"') :
    List.isPrefixOf (a ++ ['"']) (b ++ '"' :: r) = true ↔ a = b := by
  induction a generalizing b with
  | nil =>
      cases b with
      | nil => simp [List.isPrefixOf]
      | cons c bs =>
          have h1 : ¬c = '"' := hb c (by simp)
          have h2 : ¬('"' : Char) = c := fun h => h1 h.symm
          simp [List.isPrefixOf, beq_iff_eq, h2]
  | cons c as ih =>
      cases b with
      | nil =>
          have : ¬c = '"' := ha c (by simp)
          simp [List.isPrefixOf, this]
      | cons d bs =>
          have ha' : ∀ x ∈ as, ¬x = '"' := fun x hx => ha x (by simp [hx])
          have hb' : ∀ x ∈ bs, ¬x = '"' := fun x hx => hb x (by simp [hx])
          simp [List.isPrefixOf, ih bs ha' hb', beq_iff_eq]

theorem replaceLoc_lit (content rest : List Char) (hc : ∀ c ∈ content, ¬c = '"')
    (hr : sepStart rest = true) :
    replaceLoc ('"' :: content ++ '"' :: rest) =
      (if content = locMid then locRep else '"' :: content ++ ['"']) ++ replaceLoc rest := by
  by_cases hcl : content = locMid
  · subst hcl
    have hm : locMatch ('"' :: locMid ++ '"' :: rest) = true := by
      apply (List.isPrefixOf_iff_prefix).mpr
      exact ⟨rest, by simp [locPat]⟩
    rw [show ('"' :: locMid ++ '"' :: rest) = '"' :: (locMid ++ '"' :: rest) from rfl] at hm ⊢
    rw [replaceLoc_cons_match _ _ hm]
    have hdrop : (locMid ++ '"' :: rest).drop 13 = rest := rfl
    rw [hdrop, if_pos rfl]
  · have hm : locMatch ('"' :: content ++ '"' :: rest) = false := by
      cases hb : locMatch ('"' :: content ++ '"' :: rest) with
      | false => rfl
      | true =>
          exfalso
          unfold locMatch at hb
          rw [show locPat = '"' :: (locMid ++ ['"']) from rfl,
            show ('"' :: content ++ '"' :: rest) = '"' :: (content ++ '"' :: rest) from rfl] at hb
          rw [List.isPrefixOf, beq_self_eq_true, Bool.true_and] at hb
          have hmid : ∀ c ∈ locMid, ¬c = '"' := by decide
          exact hcl ((quoted_isPrefix locMid content rest hmid hc).mp hb).symm
    rw [show ('"' :: content ++ '"' :: rest) = '"' :: (content ++ '"' :: rest) from rfl] at hm ⊢
    rw [replaceLoc_cons_nomatch _ _ hm, replaceLoc_pass content _ hc,
      replaceLoc_cons_nomatch _ _ (locMatch_sep rest hr), if_neg hcl]
    simp

theorem replaceNs_lit (content rest : List Char) (hc : ∀ c ∈ content, ¬c = '"')
    (hr : sepStart rest = true) :
    replaceNs ('"' :: content ++ '"' :: rest) =
      '"' :: nsStripL content ++ '"' :: replaceNs rest := by
  rcases content with _ | ⟨c1, _ | ⟨c2, _ | ⟨c3, _ | ⟨c4, cr⟩⟩⟩⟩
  · have hm0 : nsMatch ('"' :: '"' :: rest) = false := by
      cases hb : nsMatch ('"' :: '"' :: rest) with
      | false => rfl
      | true =>
          exfalso
          obtain ⟨d, t, ht, -⟩ := nsMatch_shape _ hb
          simp only [List.cons.injEq] at ht
          exact absurd ht.2.1 (by decide)
    rw [show (('"' : Char) :: [] ++ '"' :: rest) = '"' :: '"' :: rest from rfl,
      replaceNs_cons_nomatch _ _ hm0,
      replaceNs_cons_nomatch _ _ (nsMatch_sep rest hr)]
    rfl
  · have hm : nsMatch ('"' :: [c1] ++ '"' :: rest) = false := by
      cases hb : nsMatch ('"' :: [c1] ++ '"' :: rest) with
      | false => rfl
      | true =>
          exfalso
          obtain ⟨d, t, ht, hd⟩ := nsMatch_shape _ hb
          simp only [List.cons_append, List.nil_append, List.cons.injEq] at ht
          obtain ⟨-, -, h2, -⟩ := ht
          exact absurd h2.symm (by decide)
    rw [show ('"' :: [c1] ++ '"' :: rest) = '"' :: (c1 :: '"' :: rest) from rfl] at hm ⊢
    rw [replaceNs_cons_nomatch _ _ hm,
      replaceNs_cons_nomatch _ _ (nsMatch_head c1 _ (hc c1 (by simp))),
      replaceNs_cons_nomatch _ _ (nsMatch_sep rest hr)]
    rfl
  · have hm : nsMatch ('"' :: [c1, c2] ++ '"' :: rest) = false := by
      cases hb : nsMatch ('"' :: [c1, c2] ++ '"' :: rest) with
      | false => rfl
      | true =>
          exfalso
          obtain ⟨d, t, ht, hd⟩ := nsMatch_shape _ hb
          simp only [List.cons_append, List.nil_append, List.cons.injEq] at ht
          obtain ⟨-, -, -, h3, -⟩ := ht
          rw [← h3] at hd
          exact absurd hd (by decide)
    rw [show ('"' :: [c1, c2] ++ '"' :: rest) = '"' :: (c1 :: c2 :: '"' :: rest) from rfl] at hm ⊢
    rw [replaceNs_cons_nomatch _ _ hm,
      replaceNs_cons_nomatch _ _ (nsMatch_head c1 _ (hc c1 (by simp))),
      replaceNs_cons_nomatch _ _ (nsMatch_head c2 _ (hc c2 (by simp))),
      replaceNs_cons_nomatch _ _ (nsMatch_sep rest hr)]
    rfl
  · have hm : nsMatch ('"' :: [c1, c2, c3] ++ '"' :: rest) = false := by
      cases hb : nsMatch ('"' :: [c1, c2, c3] ++ '"' :: rest) with
      | false => rfl
      | true =>
          exfalso
          obtain ⟨d, t, ht, hd⟩ := nsMatch_shape _ hb
          simp only [List.cons_append, List.nil_append, List.cons.injEq] at ht
          obtain ⟨-, -, -, -, h4, -⟩ := ht
          exact absurd h4.symm (by decide)
    rw [show ('"' :: [c1, c2, c3] ++ '"' :: rest) = '"' :: (c1 :: c2 :: c3 :: '"' :: rest) from rfl] at hm ⊢
    rw [replaceNs_cons_nomatch _ _ hm,
      replaceNs_cons_nomatch _ _ (nsMatch_head c1 _ (hc c1 (by simp))),
      replaceNs_cons_nomatch _ _ (nsMatch_head c2 _ (hc c2 (by simp))),
      replaceNs_cons_nomatch _ _ (nsMatch_head c3 _ (hc c3 (by simp))),
      replaceNs_cons_nomatch _ _ (nsMatch_sep rest hr)]
    rfl
  · by_cases hp : c1 = 'n' ∧ c2 = 's' ∧ c3.isDigit = true ∧ c4 = ':'
    · obtain ⟨h1, h2, h3, h4⟩ := hp
      subst h1; subst h2; subst h4
      have hm : nsMatch ('"' :: 'n' :: 's' :: c3 :: ':' :: (cr ++ '"' :: rest)) = true := by
        simp [nsMatch, h3]
      rw [show ('"' :: ('n' :: 's' :: c3 :: ':' :: cr) ++ '"' :: rest) =
            '"' :: ('n' :: 's' :: c3 :: ':' :: (cr ++ '"' :: rest)) by simp]
      rw [replaceNs_cons_match _ _ hm]
      have hdrop : (('n' :: 's' :: c3 :: ':' :: (cr ++ '"' :: rest)).drop 4) = cr ++ '"' :: rest := rfl
      rw [hdrop]
      have hcr : ∀ c ∈ cr, ¬c = '"' := fun x hx => hc x (by simp [hx])
      rw [replaceNs_pass cr _ hcr, replaceNs_cons_nomatch _ _ (nsMatch_sep rest hr)]
      have hstrip : nsStripL ('n' :: 's' :: c3 :: ':' :: cr) = cr := by
        simp [nsStripL, h3]
      rw [hstrip]
      rfl
    · have hm : nsMatch ('"' :: (c1 :: c2 :: c3 :: c4 :: cr) ++ '"' :: rest) = false := by
        cases hb : nsMatch ('"' :: (c1 :: c2 :: c3 :: c4 :: cr) ++ '"' :: rest) with
        | false => rfl
        | true =>
            exfalso
            obtain ⟨d, t, ht, hd⟩ := nsMatch_shape _ hb
            simp only [List.cons_append, List.cons.injEq] at ht
            obtain ⟨-, e1, e2, e3, e4, -⟩ := ht
            rw [← e3] at hd
            exact hp ⟨e1, e2, hd, e4⟩
      rw [show ('"' :: (c1 :: c2 :: c3 :: c4 :: cr) ++ '"' :: rest) =
            '"' :: ((c1 :: c2 :: c3 :: c4 :: cr) ++ '"' :: rest) from rfl] at hm ⊢
      rw [replaceNs_cons_nomatch _ _ hm,
        replaceNs_pass (c1 :: c2 :: c3 :: c4 :: cr) _ hc,
        replaceNs_cons_nomatch _ _ (nsMatch_sep rest hr)]
      have hstrip : nsStripL (c1 :: c2 :: c3 :: c4 :: cr) = c1 :: c2 :: c3 :: c4 :: cr := by
        simp only [nsStripL, ite_eq_right_iff]
        intro hcond
        exfalso
        simp only [Bool.and_eq_true, decide_eq_true_eq] at hcond
        exact hp ⟨hcond.1.1.1, hcond.1.1.2, hcond.1.2, hcond.2⟩
      rw [hstrip]
      rfl

theorem plainStr_spec {s : String} (h : plainStr s = true) :
    ∀ c ∈ s.data, ¬c = '"' ∧ ¬c = '\\' := by
  intro c hc
  have := (List.all_eq_true.mp h) c hc
  simp only [Bool.and_eq_true, Bool.not_eq_true', decide_eq_false_iff_not] at this
  exact this

theorem stringData_inj {s t : String} (h : s.data = t.data) : s = t :=
  congrArg String.mk h

theorem escStr_id (l : List Char) (h : ∀ c ∈ l, ¬c = '"' ∧ ¬c = '\\') : escStr l = l := by
  induction l with
  | nil => rfl
  | cons c cs ih =>
      have hc := h c (by simp)
      have ih' := ih (fun x hx => h x (by simp [hx]))
      simp only [escStr, List.map_cons, List.flatten_cons] at *
      rw [ih']
      simp [escChar, hc.1, hc.2]

theorem escStr_of_plain {s : String} (h : plainStr s = true) : escStr s.data = s.data :=
  escStr_id s.data (plainStr_spec h)

theorem nsStripL_sub {l : List Char} {c : Char} (h : c ∈ nsStripL l) : c ∈ l := by
  unfold nsStripL at h
  rcases l with _ | ⟨c1, _ | ⟨c2, _ | ⟨c3, _ | ⟨c4, r⟩⟩⟩⟩ <;> simp_all
  split at h <;> simp_all

theorem plain_rwTok1 {s : String} (h : plainStr s = true) : plainStr (rwTok1 s) = true := by
  unfold rwTok1
  split
  · decide
  · exact h

theorem plain_rwTok2 {s : String} (h : plainStr s = true) : plainStr (rwTok2 s) = true := by
  unfold rwTok2
  have : ∀ c ∈ nsStripL s.data, ¬c = '"' ∧ ¬c = '\\' :=
    fun c hc => plainStr_spec h c (nsStripL_sub hc)
  simp only [plainStr, List.all_eq_true]
  intro c hc
  have hc' := this c hc
  simp [hc'.1, hc'.2]

mutual

theorem plain_rwLoc (j : Json) (h : plainJson j = true) : plainJson (rwLoc j) = true := by
  cases j with
  | null => exact h
  | bool b => exact h
  | str s => exact plain_rwTok1 h
  | arr xs => exact plain_rwLocItems xs h
  | obj kvs => exact plain_rwLocKVs kvs h

theorem plain_rwLocItems (xs : List Json) (h : plainItems xs = true) :
    plainItems (rwLocItems xs) = true := by
  cases xs with
  | nil => rfl
  | cons x rest =>
      simp only [plainItems, Bool.and_eq_true] at h
      simp only [rwLocItems, plainItems, Bool.and_eq_true]
      exact ⟨plain_rwLoc x h.1, plain_rwLocItems rest h.2⟩

theorem plain_rwLocKVs (kvs : List (String × Json)) (h : plainKVs kvs = true) :
    plainKVs (rwLocKVs kvs) = true := by
  cases kvs with
  | nil => rfl
  | cons p rest =>
      obtain ⟨k, v⟩ := p
      simp only [plainKVs, Bool.and_eq_true] at h
      simp only [rwLocKVs, plainKVs, Bool.and_eq_true]
      exact ⟨⟨plain_rwTok1 h.1.1, plain_rwLoc v h.1.2⟩, plain_rwLocKVs rest h.2⟩

end

mutual

theorem plain_rwNs (j : Json) (h : plainJson j = true) : plainJson (rwNs j) = true := by
  cases j with
  | null => exact h
  | bool b => exact h
  | str s => exact plain_rwTok2 h
  | arr xs => exact plain_rwNsItems xs h
  | obj kvs => exact plain_rwNsKVs kvs h

theorem plain_rwNsItems (xs : List Json) (h : plainItems xs = true) :
    plainItems (rwNsItems xs) = true := by
  cases xs with
  | nil => rfl
  | cons x rest =>
      simp only [plainItems, Bool.and_eq_true] at h
      simp only [rwNsItems, plainItems, Bool.and_eq_true]
      exact ⟨plain_rwNs x h.1, plain_rwNsItems rest h.2⟩

theorem plain_rwNsKVs (kvs : List (String × Json)) (h : plainKVs kvs = true) :
    plainKVs (rwNsKVs kvs) = true := by
  cases kvs with
  | nil => rfl
  | cons p rest =>
      obtain ⟨k, v⟩ := p
      simp only [plainKVs, Bool.and_eq_true] at h
      simp only [rwNsKVs, plainKVs, Bool.and_eq_true]
      exact ⟨⟨plain_rwTok2 h.1.1, plain_rwNs v h.1.2⟩, plain_rwNsKVs rest h.2⟩

end

theorem locMid_data : ("ns3:Location" : String).data = locMid := rfl

theorem strTok1_eq (k : String) (hk : plainStr k = true) :
    (if k.data = locMid then locRep else '"' :: k.data ++ ['"']) =
      '"' :: escStr (rwTok1 k).data ++ ['"'] := by
  by_cases hke : k = "ns3:Location"
  · subst hke
    rw [if_pos locMid_data]
    rfl
  · have hd : ¬(k.data = locMid) := fun h => hke (stringData_inj (by rw [h, locMid_data]))
    rw [if_neg hd]
    unfold rwTok1
    rw [if_neg hke, escStr_of_plain hk]

theorem strTok2_spread (k : String) (hk : plainStr k = true) (z : List Char) :
    ('"' :: nsStripL k.data ++ '"' :: z : List Char) = '"' :: escStr (rwTok2 k).data ++ '"' :: z := by
  rw [show escStr (rwTok2 k).data = nsStripL k.data from escStr_of_plain (plain_rwTok2 hk)]

mutual

theorem repLoc_str (j : Json) (hj : plainJson j = true) (rest : List Char)
    (hr : sepStart rest = true) :
    replaceLoc (stringifyJson j ++ rest) = stringifyJson (rwLoc j) ++ replaceLoc rest := by
  cases j with
  | null =>
      rw [show rwLoc .null = .null from rfl]
      exact replaceLoc_pass _ _ (by decide)
  | bool b =>
      rw [show rwLoc (.bool b) = .bool b from rfl]
      cases b <;> exact replaceLoc_pass _ _ (by decide)
  | str s =>
      have hplain : plainStr s = true := hj
      have hq : ∀ c ∈ s.data, ¬c = '"' := fun c hc => (plainStr_spec hplain c hc).1
      rw [show stringifyJson (.str s) = '"' :: s.data ++ ['"'] by
            simp [stringifyJson, escStr_of_plain hplain],
          show ('"' :: s.data ++ ['"']) ++ rest = '"' :: s.data ++ '"' :: rest by simp,
          replaceLoc_lit s.data rest hq hr, strTok1_eq s hplain]
      rfl
  | arr xs =>
      have hx : plainItems xs = true := hj
      rw [show stringifyJson (.arr xs) ++ rest = '[' :: (stringifyItems xs ++ ']' :: rest) by
            simp [stringifyJson],
          replaceLoc_cons_nomatch _ _ (locMatch_head _ _ (by decide)),
          repLoc_items xs hx (']' :: rest) rfl,
          replaceLoc_cons_nomatch _ _ (locMatch_head _ _ (by decide))]
      simp [stringifyJson, rwLoc]
  | obj kvs =>
      have hk : plainKVs kvs = true := hj
      rw [show stringifyJson (.obj kvs) ++ rest = '\x7b' :: (stringifyKVs kvs ++ '\x7d' :: rest) by
            simp [stringifyJson],
          replaceLoc_cons_nomatch _ _ (locMatch_head _ _ (by decide)),
          repLoc_kvs kvs hk ('\x7d' :: rest) rfl,
          replaceLoc_cons_nomatch _ _ (locMatch_head _ _ (by decide))]
      simp [stringifyJson, rwLoc]

theorem repLoc_items (xs : List Json) (hx : plainItems xs = true) (rest : List Char)
    (hr : sepStart rest = true) :
    replaceLoc (stringifyItems xs ++ rest) = stringifyItems (rwLocItems xs) ++ replaceLoc rest := by
  match xs with
  | [] => rfl
  | [x] =>
      have h1 : plainJson x = true := by
        simp only [plainItems, Bool.and_eq_true] at hx
        exact hx.1
      rw [show stringifyItems [x] = stringifyJson x from rfl,
          repLoc_str x h1 rest hr]
      rfl
  | x :: y :: r =>
      simp only [plainItems, Bool.and_eq_true] at hx
      have hyr : plainItems (y :: r) = true := by
        simp only [plainItems, Bool.and_eq_true]
        exact hx.2
      rw [show stringifyItems (x :: y :: r) ++ rest =
            stringifyJson x ++ ',' :: (stringifyItems (y :: r) ++ rest) by
            simp [stringifyItems],
          repLoc_str x hx.1 (',' :: (stringifyItems (y :: r) ++ rest)) rfl,
          replaceLoc_cons_nomatch _ _ (locMatch_head _ _ (by decide)),
          repLoc_items (y :: r) hyr rest hr]
      simp [stringifyItems, rwLocItems]

theorem repLoc_kvs (kvs : List (String × Json)) (hk : plainKVs kvs = true) (rest : List Char)
    (hr : sepStart rest = true) :
    replaceLoc (stringifyKVs kvs ++ rest) = stringifyKVs (rwLocKVs kvs) ++ replaceLoc rest := by
  match kvs with
  | [] => rfl
  | [(k, v)] =>
      simp only [plainKVs, Bool.and_eq_true] at hk
      have hq : ∀ c ∈ k.data, ¬c = '"' := fun c hc => (plainStr_spec hk.1.1 c hc).1
      rw [show stringifyKVs [(k, v)] ++ rest =
            '"' :: k.data ++ '"' :: (':' :: (stringifyJson v ++ rest)) by
            simp [stringifyKVs, escStr_of_plain hk.1.1],
          replaceLoc_lit k.data (':' :: (stringifyJson v ++ rest)) hq rfl,
          replaceLoc_cons_nomatch _ _ (locMatch_head _ _ (by decide)),
          repLoc_str v hk.1.2 rest hr, strTok1_eq k hk.1.1]
      simp [stringifyKVs, rwLocKVs]
  | (k, v) :: q :: r =>
      obtain ⟨qk, qv⟩ := q
      simp only [plainKVs, Bool.and_eq_true] at hk
      have hqr : plainKVs ((qk, qv) :: r) = true := by
        simp only [plainKVs, Bool.and_eq_true]
        exact hk.2
      have hq : ∀ c ∈ k.data, ¬c = '"' := fun c hc => (plainStr_spec hk.1.1 c hc).1
      rw [show stringifyKVs ((k, v) :: (qk, qv) :: r) ++ rest =
            '"' :: k.data ++ '"' :: (':' :: (stringifyJson v ++
              (',' :: (stringifyKVs ((qk, qv) :: r) ++ rest)))) by
            simp [stringifyKVs, escStr_of_plain hk.1.1],
          replaceLoc_lit k.data
            (':' :: (stringifyJson v ++ (',' :: (stringifyKVs ((qk, qv) :: r) ++ rest)))) hq rfl,
          replaceLoc_cons_nomatch _ _ (locMatch_head _ _ (by decide)),
          repLoc_str v hk.1.2 (',' :: (stringifyKVs ((qk, qv) :: r) ++ rest)) rfl,
          replaceLoc_cons_nomatch _ _ (locMatch_head _ _ (by decide)),
          repLoc_kvs ((qk, qv) :: r) hqr rest hr, strTok1_eq k hk.1.1]
      simp [stringifyKVs, rwLocKVs]

end

mutual

theorem repNs_str (j : Json) (hj : plainJson j = true) (rest : List Char)
    (hr : sepStart rest = true) :
    replaceNs (stringifyJson j ++ rest) = stringifyJson (rwNs j) ++ replaceNs rest := by
  cases j with
  | null =>
      rw [show rwNs .null = .null from rfl]
      exact replaceNs_pass _ _ (by decide)
  | bool b =>
      rw [show rwNs (.bool b) = .bool b from rfl]
      cases b <;> exact replaceNs_pass _ _ (by decide)
  | str s =>
      have hplain : plainStr s = true := hj
      have hq : ∀ c ∈ s.data, ¬c = '"' := fun c hc => (plainStr_spec hplain c hc).1
      rw [show stringifyJson (.str s) = '"' :: s.data ++ ['"'] by
            simp [stringifyJson, escStr_of_plain hplain],
          show ('"' :: s.data ++ ['"']) ++ rest = '"' :: s.data ++ '"' :: rest by simp,
          replaceNs_lit s.data rest hq hr, strTok2_spread s hplain (replaceNs rest)]
      simp [stringifyJson, rwNs]
  | arr xs =>
      have hx : plainItems xs = true := hj
      rw [show stringifyJson (.arr xs) ++ rest = '[' :: (stringifyItems xs ++ ']' :: rest) by
            simp [stringifyJson],
          replaceNs_cons_nomatch _ _ (nsMatch_head _ _ (by decide)),
          repNs_items xs hx (']' :: rest) rfl,
          replaceNs_cons_nomatch _ _ (nsMatch_head _ _ (by decide))]
      simp [stringifyJson, rwNs]
  | obj kvs =>
      have hk : plainKVs kvs = true := hj
      rw [show stringifyJson (.obj kvs) ++ rest = '\x7b' :: (stringifyKVs kvs ++ '\x7d' :: rest) by
            simp [stringifyJson],
          replaceNs_cons_nomatch _ _ (nsMatch_head _ _ (by decide)),
          repNs_kvs kvs hk ('\x7d' :: rest) rfl,
          replaceNs_cons_nomatch _ _ (nsMatch_head _ _ (by decide))]
      simp [stringifyJson, rwNs]

theorem repNs_items (xs : List Json) (hx : plainItems xs = true) (rest : List Char)
    (hr : sepStart rest = true) :
    replaceNs (stringifyItems xs ++ rest) = stringifyItems (rwNsItems xs) ++ replaceNs rest := by
  match xs with
  | [] => rfl
  | [x] =>
      have h1 : plainJson x = true := by
        simp only [plainItems, Bool.and_eq_true] at hx
        exact hx.1
      rw [show stringifyItems [x] = stringifyJson x from rfl,
          repNs_str x h1 rest hr]
      rfl
  | x :: y :: r =>
      simp only [plainItems, Bool.and_eq_true] at hx
      have hyr : plainItems (y :: r) = true := by
        simp only [plainItems, Bool.and_eq_true]
        exact hx.2
      rw [show stringifyItems (x :: y :: r) ++ rest =
            stringifyJson x ++ ',' :: (stringifyItems (y :: r) ++ rest) by
            simp [stringifyItems],
          repNs_str x hx.1 (',' :: (stringifyItems (y :: r) ++ rest)) rfl,
          replaceNs_cons_nomatch _ _ (nsMatch_head _ _ (by decide)),
          repNs_items (y :: r) hyr rest hr]
      simp [stringifyItems, rwNsItems]

theorem repNs_kvs (kvs : List (String × Json)) (hk : plainKVs kvs = true) (rest : List Char)
    (hr : sepStart rest = true) :
    replaceNs (stringifyKVs kvs ++ rest) = stringifyKVs (rwNsKVs kvs) ++ replaceNs rest := by
  match kvs with
  | [] => rfl
  | [(k, v)] =>
      simp only [plainKVs, Bool.and_eq_true] at hk
      have hq : ∀ c ∈ k.data, ¬c = '"' := fun c hc => (plainStr_spec hk.1.1 c hc).1
      rw [show stringifyKVs [(k, v)] ++ rest =
            '"' :: k.data ++ '"' :: (':' :: (stringifyJson v ++ rest)) by
            simp [stringifyKVs, escStr_of_plain hk.1.1],
          replaceNs_lit k.data (':' :: (stringifyJson v ++ rest)) hq rfl,
          replaceNs_cons_nomatch _ _ (nsMatch_head _ _ (by decide)),
          repNs_str v hk.1.2 rest hr,
          strTok2_spread k hk.1.1 (':' :: (stringifyJson (rwNs v) ++ replaceNs rest))]
      simp [stringifyKVs, rwNsKVs]
  | (k, v) :: q :: r =>
      obtain ⟨qk, qv⟩ := q
      simp only [plainKVs, Bool.and_eq_true] at hk
      have hqr : plainKVs ((qk, qv) :: r) = true := by
        simp only [plainKVs, Bool.and_eq_true]
        exact hk.2
      have hq : ∀ c ∈ k.data, ¬c = '"' := fun c hc => (plainStr_spec hk.1.1 c hc).1
      rw [show stringifyKVs ((k, v) :: (qk, qv) :: r) ++ rest =
            '"' :: k.data ++ '"' :: (':' :: (stringifyJson v ++
              (',' :: (stringifyKVs ((qk, qv) :: r) ++ rest)))) by
            simp [stringifyKVs, escStr_of_plain hk.1.1],
          replaceNs_lit k.data
            (':' :: (stringifyJson v ++ (',' :: (stringifyKVs ((qk, qv) :: r) ++ rest)))) hq rfl,
          replaceNs_cons_nomatch _ _ (nsMatch_head _ _ (by decide)),
          repNs_str v hk.1.2 (',' :: (stringifyKVs ((qk, qv) :: r) ++ rest)) rfl,
          replaceNs_cons_nomatch _ _ (nsMatch_head _ _ (by decide)),
          repNs_kvs ((qk, qv) :: r) hqr rest hr,
          strTok2_spread k hk.1.1
            (':' :: (stringifyJson (rwNs v) ++
              ',' :: (stringifyKVs (rwNsKVs ((qk, qv) :: r)) ++ replaceNs rest)))]
      simp [stringifyKVs, rwNsKVs]

end

mutual

/-- Fuel sufficient for `parseVal` to consume a serialized value. -/
def jfuel : Json → Nat
  | .arr xs => 2 + jfuelItems xs
  | .obj kvs => 2 + jfuelKVs kvs
  | _ => 1

/-- Fuel sufficient for `parseItems` on a serialized element list. -/
def jfuelItems : List Json → Nat
  | [] => 1
  | x :: rest => 1 + max (jfuel x) (jfuelItems rest)

/-- Fuel sufficient for `parseKVs` on a serialized field list. -/
def jfuelKVs : List (String × Json) → Nat
  | [] => 1
  | (_, v) :: rest => 1 + max (jfuel v) (jfuelKVs rest)

end

theorem stringify_len_pos (j : Json) : 1 ≤ (stringifyJson j).length := by
  cases j with
  | null => simp [stringifyJson]
  | bool b => cases b <;> simp [stringifyJson]
  | str s => simp [stringifyJson]
  | arr xs => simp [stringifyJson]
  | obj kvs => simp [stringifyJson]

mutual

theorem jfuel_le (j : Json) : jfuel j ≤ 2 * (stringifyJson j).length := by
  cases j with
  | null => simp [jfuel, stringifyJson]
  | bool b => cases b <;> simp [jfuel, stringifyJson]
  | str s =>
      simp only [jfuel, stringifyJson, List.length_cons, List.length_append,
        List.length_singleton]
      omega
  | arr xs =>
      have h := jfuelItems_le xs
      simp only [jfuel, stringifyJson, List.length_cons, List.length_append,
        List.length_singleton]
      omega
  | obj kvs =>
      have h := jfuelKVs_le kvs
      simp only [jfuel, stringifyJson, List.length_cons, List.length_append,
        List.length_singleton]
      omega

theorem jfuelItems_le (xs : List Json) : jfuelItems xs ≤ 2 * (stringifyItems xs).length + 2 := by
  match xs with
  | [] => simp [jfuelItems, stringifyItems]
  | [x] =>
      have h1 := jfuel_le x
      have h2 := stringify_len_pos x
      simp only [jfuelItems, stringifyItems]
      omega
  | x :: y :: r =>
      have h1 := jfuel_le x
      have h2 := jfuelItems_le (y :: r)
      simp only [jfuelItems, stringifyItems, List.length_append, List.length_cons]
      simp only [jfuelItems] at h2
      omega

theorem jfuelKVs_le (kvs : List (String × Json)) :
    jfuelKVs kvs ≤ 2 * (stringifyKVs kvs).length + 2 := by
  match kvs with
  | [] => simp [jfuelKVs, stringifyKVs]
  | [(k, v)] =>
      have h1 := jfuel_le v
      have h2 := stringify_len_pos v
      simp only [jfuelKVs, stringifyKVs, List.length_cons, List.length_append]
      omega
  | (k, v) :: q :: r =>
      have h1 := jfuel_le v
      have h2 := jfuelKVs_le (q :: r)
      obtain ⟨qk, qv⟩ := q
      simp only [jfuelKVs, stringifyKVs, List.length_append, List.length_cons] at *
      omega

end

theorem parseLit_round (content : List Char) (acc r : List Char)
    (h : ∀ c ∈ content, ¬c = '"' ∧ ¬c = '\\') :
    parseLit acc (content ++ '"' :: r) = some (String.mk (acc.reverse ++ content), r) := by
  induction content generalizing acc with
  | nil =>
      rw [List.nil_append, parseLit.eq_def]
      simp
  | cons c cs ih =>
      have hc := h c (by simp)
      rw [List.cons_append, parseLit.eq_def]
      simp only []
      rw [if_neg hc.1, if_neg hc.2,
        ih (c :: acc) (fun x hx => h x (by simp [hx]))]
      simp

theorem keysFresh_extract (acc : List (String × Json)) (k : String) (v : Json)
    (tail : List (String × Json)) (h : keysFresh (acc ++ (k, v) :: tail) = true) :
    ∀ p ∈ acc, ¬p.1 = k := by
  induction acc with
  | nil => intro p hp; simp at hp
  | cons a rest ih =>
      obtain ⟨ak, av⟩ := a
      simp only [List.cons_append, keysFresh, Bool.and_eq_true, List.all_eq_true] at h
      intro p hp
      rcases List.mem_cons.mp hp with hpa | hpr
      · subst hpa
        intro hke
        have := h.1 (k, v) (by simp)
        simp only [Bool.not_eq_true', beq_eq_false_iff_ne, ne_eq] at this
        exact this hke.symm
      · exact ih h.2 p hpr

theorem keysFresh_tail (acc : List (String × Json)) (p : String × Json)
    (tail : List (String × Json)) (h : keysFresh (acc ++ p :: tail) = true) :
    keysFresh ((acc ++ [p]) ++ tail) = true := by
  rw [List.append_assoc, List.singleton_append]
  exact h

theorem insert_fresh (acc : List (String × Json)) (k : String) (v : Json)
    (h : ∀ p ∈ acc, ¬p.1 = k) : insertKV acc k v = acc ++ [(k, v)] := by
  induction acc with
  | nil => rfl
  | cons a rest ih =>
      obtain ⟨ak, av⟩ := a
      have hak : ¬ak = k := h (ak, av) (by simp)
      rw [insertKV, if_neg hak, ih (fun p hp => h p (by simp [hp]))]
      rfl

theorem stringify_headNe (j : Json) :
    ∃ c t, stringifyJson j = c :: t ∧ ¬c = ']' ∧ ¬c = '\x7d' := by
  cases j with
  | null => exact ⟨'n', _, rfl, by decide, by decide⟩
  | bool b =>
      cases b with
      | true => exact ⟨'t', _, rfl, by decide, by decide⟩
      | false => exact ⟨'f', _, rfl, by decide, by decide⟩
  | str s => exact ⟨'"', _, rfl, by decide, by decide⟩
  | arr xs => exact ⟨'[', _, rfl, by decide, by decide⟩
  | obj kvs => exact ⟨'\x7b', _, rfl, by decide, by decide⟩

theorem stringifyItems_cons (x : Json) (xr : List Json) :
    ∃ z, stringifyItems (x :: xr) = stringifyJson x ++ z := by
  cases xr with
  | nil => exact ⟨[], by simp [stringifyItems]⟩
  | cons y r => exact ⟨',' :: stringifyItems (y :: r), by simp [stringifyItems]⟩

theorem stringifyKVs_cons (p : String × Json) (r : List (String × Json)) :
    ∃ z, stringifyKVs (p :: r) = '"' :: z := by
  obtain ⟨k, v⟩ := p
  cases r with
  | nil => exact ⟨escStr k.data ++ '"' :: ':' :: stringifyJson v, by simp [stringifyKVs]⟩
  | cons q r2 =>
      exact ⟨escStr k.data ++ '"' :: ':' :: stringifyJson v ++
        ',' :: stringifyKVs (q :: r2), by simp [stringifyKVs]⟩

theorem optSomeBind {α β : Type} (a : α) (f : α → Option β) :
    (some a).bind f = f a := rfl

theorem parseArrTail_ne (f : Nat) (c : Char) (t : List Char) (hc : ¬c = ']') :
    parseArrTail (f + 1) (c :: t) = (parseItems f (c :: t)).map (fun p => (.arr p.1, p.2)) := by
  rw [parseArrTail.eq_def]
  split
  · rename_i heq
    omega
  · rename_i hfe heq
    simp only [List.cons.injEq] at heq
    exact absurd heq.1 hc
  · rename_i fv heq hnm
    obtain rfl : fv = f := by omega
    rfl

theorem parseObjTail_ne (f : Nat) (c : Char) (t : List Char) (hc : ¬c = '\x7d') :
    parseObjTail (f + 1) (c :: t) = (parseKVs f [] (c :: t)).map (fun p => (.obj p.1, p.2)) := by
  rw [parseObjTail.eq_def]
  split
  · rename_i heq
    omega
  · rename_i hfe heq
    simp only [List.cons.injEq] at heq
    exact absurd heq.1 hc
  · rename_i fv heq hnm
    obtain rfl : fv = f := by omega
    rfl

mutual

theorem parse_round (j : Json) (hp : plainJson j = true) (hn : nodupJson j = true) :
    ∀ f rest, jfuel j ≤ f → parseVal f (stringifyJson j ++ rest) = some (j, rest) := by
  intro f rest hf
  cases j with
  | null =>
      cases f with
      | zero => simp [jfuel] at hf
      | succ f => rfl
  | bool b =>
      cases f with
      | zero => simp [jfuel] at hf
      | succ f => cases b <;> rfl
  | str s =>
      cases f with
      | zero => simp [jfuel] at hf
      | succ f =>
          have hesc := escStr_of_plain (hp : plainStr s = true)
          rw [show stringifyJson (.str s) ++ rest = '"' :: (s.data ++ '"' :: rest) by
                simp [stringifyJson, hesc],
              show parseVal (f + 1) ('"' :: (s.data ++ '"' :: rest)) =
                (parseLit [] (s.data ++ '"' :: rest)).map (fun p => (Json.str p.1, p.2)) from rfl,
              parseLit_round s.data [] rest (plainStr_spec hp)]
          simp
  | arr xs =>
      cases xs with
      | nil =>
          cases f with
          | zero => simp [jfuel, jfuelItems] at hf
          | succ f =>
              cases f with
              | zero => simp [jfuel, jfuelItems] at hf
              | succ f => rfl
      | cons x xr =>
          cases f with
          | zero => simp [jfuel, jfuelItems] at hf
          | succ f =>
              cases f with
              | zero =>
                  simp only [jfuel, jfuelItems] at hf
                  omega
              | succ f =>
                  have hfi : jfuelItems (x :: xr) ≤ f := by
                    simp only [jfuel] at hf; omega
                  obtain ⟨z, hz⟩ := stringifyItems_cons x xr
                  obtain ⟨c, t, hct, hc1, hc2⟩ := stringify_headNe x
                  have hT : stringifyItems (x :: xr) ++ ']' :: rest =
                      c :: (t ++ z ++ ']' :: rest) := by
                    rw [hz, hct]; simp
                  rw [show stringifyJson (.arr (x :: xr)) ++ rest =
                        '[' :: (stringifyItems (x :: xr) ++ ']' :: rest) by simp [stringifyJson],
                      show parseVal (f + 1 + 1) ('[' :: (stringifyItems (x :: xr) ++ ']' :: rest)) =
                        parseArrTail (f + 1) (stringifyItems (x :: xr) ++ ']' :: rest) from rfl,
                      hT, parseArrTail_ne f c _ hc1, ← hT,
                      parse_round_items (x :: xr) (by simp) hp hn f rest hfi]
                  rfl
  | obj kvs =>
      cases kvs with
      | nil =>
          cases f with
          | zero => simp [jfuel, jfuelKVs] at hf
          | succ f =>
              cases f with
              | zero => simp [jfuel, jfuelKVs] at hf
              | succ f => rfl
      | cons p r =>
          cases f with
          | zero => simp [jfuel, jfuelKVs] at hf
          | succ f =>
              cases f with
              | zero =>
                  simp only [jfuel, jfuelKVs] at hf
                  omega
              | succ f =>
                  have hfk : jfuelKVs (p :: r) ≤ f := by
                    simp only [jfuel] at hf; omega
                  have hfr : keysFresh ([] ++ p :: r) = true := by
                    simp only [nodupJson, Bool.and_eq_true] at hn
                    simpa using hn.1
                  have hnk : nodupKVs (p :: r) = true := by
                    simp only [nodupJson, Bool.and_eq_true] at hn
                    exact hn.2
                  obtain ⟨z, hz⟩ := stringifyKVs_cons p r
                  have hT : stringifyKVs (p :: r) ++ '\x7d' :: rest =
                      '"' :: (z ++ '\x7d' :: rest) := by
                    rw [hz]; simp
                  rw [show stringifyJson (.obj (p :: r)) ++ rest =
                        '\x7b' :: (stringifyKVs (p :: r) ++ '\x7d' :: rest) by simp [stringifyJson],
                      show parseVal (f + 1 + 1) ('\x7b' :: (stringifyKVs (p :: r) ++ '\x7d' :: rest)) =
                        parseObjTail (f + 1) (stringifyKVs (p :: r) ++ '\x7d' :: rest) from rfl,
                      hT, parseObjTail_ne f '"' _ (by decide), ← hT,
                      parse_round_kvs (p :: r) (by simp) hp hnk f rest [] hfk hfr]
                  rfl

theorem parse_round_items (xs : List Json) (hne : xs ≠ []) (hp : plainItems xs = true)
    (hn : nodupItems xs = true) :
    ∀ f rest, jfuelItems xs ≤ f →
      parseItems f (stringifyItems xs ++ ']' :: rest) = some (xs, rest) := by
  intro f rest hf
  match xs with
  | [] => exact absurd rfl hne
  | [x] =>
      cases f with
      | zero => simp [jfuelItems] at hf
      | succ f =>
          simp only [plainItems, Bool.and_eq_true] at hp
          simp only [nodupItems, Bool.and_eq_true] at hn
          have hfx : jfuel x ≤ f := by
            simp only [jfuelItems] at hf; omega
          rw [show stringifyItems [x] ++ ']' :: rest = stringifyJson x ++ ']' :: rest from rfl]
          simp only [parseItems]
          rw [parse_round x hp.1 hn.1 f (']' :: rest) hfx]
          rfl
  | x :: y :: r =>
      cases f with
      | zero => simp [jfuelItems] at hf
      | succ f =>
          simp only [plainItems, Bool.and_eq_true] at hp
          simp only [nodupItems, Bool.and_eq_true] at hn
          have hfx : jfuel x ≤ f := by
            simp only [jfuelItems] at hf; omega
          have hfyr : jfuelItems (y :: r) ≤ f := by
            simp only [jfuelItems] at hf
            simp only [jfuelItems]
            omega
          have hpyr : plainItems (y :: r) = true := by
            simp only [plainItems, Bool.and_eq_true]
            exact hp.2
          have hnyr : nodupItems (y :: r) = true := by
            simp only [nodupItems, Bool.and_eq_true]
            exact hn.2
          rw [show stringifyItems (x :: y :: r) ++ ']' :: rest =
                stringifyJson x ++ ',' :: (stringifyItems (y :: r) ++ ']' :: rest) by
                simp [stringifyItems]]
          simp only [parseItems]
          rw [parse_round x hp.1 hn.1 f _ hfx]
          show Option.map (fun p => (x :: p.1, p.2))
              (parseItems f (stringifyItems (y :: r) ++ ']' :: rest)) =
            some (x :: y :: r, rest)
          rw [parse_round_items (y :: r) (by simp) hpyr hnyr f rest hfyr]
          rfl

theorem parse_round_kvs (kvs : List (String × Json)) (hne : kvs ≠ [])
    (hp : plainKVs kvs = true) (hn : nodupKVs kvs = true) :
    ∀ f rest acc, jfuelKVs kvs ≤ f → keysFresh (acc ++ kvs) = true →
      parseKVs f acc (stringifyKVs kvs ++ '\x7d' :: rest) = some (acc ++ kvs, rest) := by
  intro f rest acc hf hfresh
  match kvs with
  | [] => exact absurd rfl hne
  | [(k, v)] =>
      cases f with
      | zero => simp [jfuelKVs] at hf
      | succ f =>
          simp only [plainKVs, Bool.and_eq_true] at hp
          simp only [nodupKVs, Bool.and_eq_true] at hn
          have hfv : jfuel v ≤ f := by
            simp only [jfuelKVs] at hf; omega
          rw [show stringifyKVs [(k, v)] ++ '\x7d' :: rest =
                '"' :: (k.data ++ '"' :: (':' :: (stringifyJson v ++ '\x7d' :: rest))) by
                simp [stringifyKVs, escStr_of_plain hp.1.1]]
          simp only [parseKVs]
          rw [parseLit_round k.data [] _ (plainStr_spec hp.1.1)]
          simp only [List.reverse_nil, List.nil_append]
          rw [show String.mk k.data = k from congrArg String.mk rfl]
          rw [optSomeBind]
          simp only []
          rw [parse_round v hp.1.2 hn.1 f ('\x7d' :: rest) hfv, optSomeBind]
          show some (insertKV acc k v, rest) = some (acc ++ [(k, v)], rest)
          rw [insert_fresh acc k v (keysFresh_extract acc k v [] hfresh)]
  | (k, v) :: q :: r =>
      cases f with
      | zero => simp [jfuelKVs] at hf
      | succ f =>
          simp only [plainKVs, Bool.and_eq_true] at hp
          simp only [nodupKVs, Bool.and_eq_true] at hn
          have hfv : jfuel v ≤ f := by
            simp only [jfuelKVs] at hf; omega
          have hfqr : jfuelKVs (q :: r) ≤ f := by
            obtain ⟨qk, qv⟩ := q
            simp only [jfuelKVs] at hf
            simp only [jfuelKVs]
            omega
          have hpqr : plainKVs (q :: r) = true := by
            obtain ⟨qk, qv⟩ := q
            simp only [plainKVs, Bool.and_eq_true] at hp ⊢
            exact hp.2
          have hnqr : nodupKVs (q :: r) = true := by
            obtain ⟨qk, qv⟩ := q
            simp only [nodupKVs, Bool.and_eq_true] at hn ⊢
            exact hn.2
          rw [show stringifyKVs ((k, v) :: q :: r) ++ '\x7d' :: rest =
                '"' :: (k.data ++ '"' :: (':' :: (stringifyJson v ++
                  ',' :: (stringifyKVs (q :: r) ++ '\x7d' :: rest)))) by
                simp [stringifyKVs, escStr_of_plain hp.1.1]]
          simp only [parseKVs]
          rw [parseLit_round k.data [] _ (plainStr_spec hp.1.1)]
          simp only [List.reverse_nil, List.nil_append]
          rw [show String.mk k.data = k from congrArg String.mk rfl]
          rw [optSomeBind]
          simp only []
          rw [parse_round v hp.1.2 hn.1 f _ hfv, optSomeBind]
          show parseKVs f (insertKV acc k v) (stringifyKVs (q :: r) ++ '\x7d' :: rest) =
            some (acc ++ (k, v) :: q :: r, rest)
          rw [insert_fresh acc k v (keysFresh_extract acc k v (q :: r) hfresh),
            parse_round_kvs (q :: r) (by simp) hpqr hnqr f rest (acc ++ [(k, v)]) hfqr
              (keysFresh_tail acc (k, v) (q :: r) hfresh)]
          simp

end

theorem replaceKeys_eq (j : Json) (hp : plainJson j = true)
    (hn : nodupJson (rewriteTree j) = true) :
    replaceKeys j = some (rewriteTree j) := by
  have h1 : replaceLoc (stringifyJson j) = stringifyJson (rwLoc j) := by
    have h := repLoc_str j hp [] rfl
    rw [List.append_nil, replaceLoc_nil, List.append_nil] at h
    exact h
  have h2 : replaceNs (stringifyJson (rwLoc j)) = stringifyJson (rwNs (rwLoc j)) := by
    have h := repNs_str (rwLoc j) (plain_rwLoc j hp) [] rfl
    rw [List.append_nil, replaceNs_nil, List.append_nil] at h
    exact h
  have hplain2 : plainJson (rewriteTree j) = true := plain_rwNs _ (plain_rwLoc j hp)
  have hround := parse_round (rewriteTree j) hplain2 hn
    (2 * (stringifyJson (rewriteTree j)).length + 2) []
    (le_trans (jfuel_le _) (by omega))
  rw [List.append_nil] at hround
  unfold replaceKeys parseJson
  rw [h1, h2]
  rw [show rwNs (rwLoc j) = rewriteTree j from rfl, hround]

/-- Failures JavaScript evaluation can raise inside this pipeline. -/
inductive JsErr where
  | typeError (prop : String) : JsErr
  | ctorError (msg : String) : JsErr
  | xmlError (msg : String) : JsErr
  | jsonError : JsErr
deriving Repr, DecidableEq

/-- First-match lookup of an object field. -/
def lookupKV : List (String × Json) → String → Option Json
  | [], _ => none
  | (k0, v) :: rest, k => if k0 = k then some v else lookupKV rest k

/-- JavaScript property access `base.k`: throws a TypeError when the base
is `undefined` or `null`; yields the field on objects, and `undefined`
(`none`) when the key is absent or the base is another primitive. -/
def getProp (base : Option Json) (k : String) : Except JsErr (Option Json) :=
  match base with
  | none => .error (.typeError k)
  | some .null => .error (.typeError k)
  | some (.obj kvs) => .ok (lookupKV kvs k)
  | some _ => .ok none

/-- Chained property access, as in `messageJSON.Pport.uR.schedule`. -/
def propPath (base : Option Json) : List String → Except JsErr (Option Json)
  | [] => .ok base
  | k :: ks => (getProp base k).bind (fun v => propPath v ks)

/-- Opaque value produced by one of the five external domain constructors. -/
structure DomainObj where
  tag : String
  arg : Option Json
deriving Repr

/-- The five external domain constructors of `openraildata-common`, kept
opaque as the spec directs: each consumes a sub-structure of the
transformed record and may throw. -/
structure Ctors where
  trainStatus : Option Json → Except JsErr DomainObj
  schedule : Option Json → Except JsErr DomainObj
  association : Option Json → Except JsErr DomainObj
  trainOrder : Option Json → Except JsErr DomainObj
  stationMessage : Option Json → Except JsErr DomainObj

/-- Payload of each event `getMessage` can return. -/
inductive EventPayload where
  | trainStatus (ts : Option Json) (trainStatus : DomainObj) (origin : Option Json)
  | schedule (id : Option Json) (ts : Option Json) (schedule : DomainObj)
      (origin : Option Json) (source : Option Json)
  | association (id : Option Json) (ts : Option Json) (association : DomainObj)
      (origin : Option Json) (source : Option Json)
  | trainOrder (id : Option Json) (ts : Option Json) (trainOrder : DomainObj)
      (origin : Option Json) (source : Option Json)
  | stationMessage (ts : Option Json) (stationMessage : DomainObj) (origin : Option Json)
  | unhandled (record : Json)
deriving Repr

/-- The classifier `getMessage` of `darwin.js` (lines 53-142): five literal
comma-terminated type tokens select the event, the payload fields are read
with JavaScript property-access semantics in the evaluation order of the
source's object literals, and any other type yields `unhandledMessage`
with the untouched record. -/
def getMessage (C : Ctors) (type : String) (messageJSON : Json) :
    Except JsErr (String × EventPayload) :=
  if type = "TRAINSTATUS," then do
    let ts ← propPath (some messageJSON) ["Pport", "ts"]
    let tsArg ← propPath (some messageJSON) ["Pport", "uR", "TS"]
    let st ← C.trainStatus tsArg
    let origin ← propPath (some messageJSON) ["Pport", "uR", "updateOrigin"]
    return ("trainStatus", .trainStatus ts st origin)
  else if type = "SCHEDULE," then do
    let id ← propPath (some messageJSON) ["Pport", "uR", "requestID"]
    let ts ← propPath (some messageJSON) ["Pport", "ts"]
    let schedArg ← propPath (some messageJSON) ["Pport", "uR", "schedule"]
    let sched ← C.schedule schedArg
    let origin ← propPath (some messageJSON) ["Pport", "uR", "updateOrigin"]
    let source ← propPath (some messageJSON) ["Pport", "uR", "requestSource"]
    return ("schedule", .schedule id ts sched origin source)
  else if type = "ASSOCIATION," then do
    let id ← propPath (some messageJSON) ["Pport", "uR", "requestID"]
    let ts ← propPath (some messageJSON) ["Pport", "ts"]
    let assocArg ← propPath (some messageJSON) ["Pport", "uR", "association"]
    let assoc ← C.association assocArg
    let origin ← propPath (some messageJSON) ["Pport", "uR", "updateOrigin"]
    let source ← propPath (some messageJSON) ["Pport", "uR", "requestSource"]
    return ("association", .association id ts assoc origin source)
  else if type = "TRAINORDER," then do
    let id ← propPath (some messageJSON) ["Pport", "uR", "requestID"]
    let ts ← propPath (some messageJSON) ["Pport", "ts"]
    let ordArg ← propPath (some messageJSON) ["Pport", "uR", "trainOrder"]
    let ord ← C.trainOrder ordArg
    let origin ← propPath (some messageJSON) ["Pport", "uR", "updateOrigin"]
    let source ← propPath (some messageJSON) ["Pport", "uR", "requestSource"]
    return ("trainOrder", .trainOrder id ts ord origin source)
  else if type = "STATIONMESSAGE," then do
    let ts ← propPath (some messageJSON) ["Pport", "ts"]
    let owArg ← propPath (some messageJSON) ["Pport", "uR", "OW"]
    let sm ← C.stationMessage owArg
    let origin ← propPath (some messageJSON) ["Pport", "uR", "updateOrigin"]
    return ("stationMessage", .stationMessage ts sm origin)
  else .ok ("unhandledMessage", .unhandled messageJSON)

/-- Headers of one inbound transport message; `connect` reads the
type-classification header `FilterHeaderLevel`. -/
structure MsgHeaders where
  FilterHeaderLevel : String
deriving Repr, DecidableEq

/-- Everything the per-message pipeline can emit on the event surface. -/
inductive Emitted where
  | errorEvent (err : JsErr) (headers : Option MsgHeaders)
  | typedEvent (name : String) (payload : EventPayload)
  | messageErrEvent (err : JsErr) (diagnostic : List Char)
deriving Repr

/-- Terminal behavior of one message's decompression stream: zero or more
decoded text chunks followed by either a stream error or the end event. -/
inductive StreamOutcome where
  | errored (chunks : List String) (err : JsErr)
  | ended (chunks : List String)
deriving Repr

/-- The gunzip error handler `connect` installs per message (`darwin.js`
lines 231-235): the error event carries the original headers and is
emitted only when at least one decoded chunk had been accumulated. -/
def onStreamError (chunks : List String) (err : JsErr) (headers : MsgHeaders) : List Emitted :=
  if chunks.length > 0 then [.errorEvent err (some headers)] else []

/-- The stream-end handler (`darwin.js` lines 241-258): join the chunks,
convert the XML (external collaborator, may throw), transform with
`replaceKeys`, then classify and emit inside the `try`; a failure of the
classification or of domain-object construction becomes one `messageErr`
event carrying the error and `JSON.stringify` of the transformed record.
The conversion and the transform run before the `try`, so their failures
escape the handler. -/
def onStreamEnd (C : Ctors) (parseXml : String → Except JsErr Json) (type : String)
    (chunks : List String) : Except JsErr (List Emitted) :=
  (parseXml (String.join chunks)).bind (fun x =>
    match replaceKeys x with
    | none => .error .jsonError
    | some messageJSON =>
        match getMessage C type messageJSON with
        | .ok ev => .ok [.typedEvent ev.1 ev.2]
        | .error e => .ok [.messageErrEvent e (stringifyJson messageJSON)])

/-- Dispatch of one message's stream outcome to the two stream handlers,
with the type header read once from the message headers. -/
def handleOutcome (C : Ctors) (parseXml : String → Except JsErr Json)
    (headers : MsgHeaders) : StreamOutcome → Except JsErr (List Emitted)
  | .errored chunks e => .ok (onStreamError chunks e headers)
  | .ended chunks => onStreamEnd C parseXml headers.FilterHeaderLevel chunks

/-- The subscription callback (`darwin.js` lines 217-222): a non-null
subscription error is emitted as a single bare error event and the message
body is never decoded. -/
def onSubMessage (C : Ctors) (parseXml : String → Except JsErr Json)
    (subErr : Option JsErr) (headers : MsgHeaders) (outcome : StreamOutcome) :
    Except JsErr (List Emitted) :=
  match subErr with
  | some e => .ok [.errorEvent e none]
  | none => handleOutcome C parseXml headers outcome

/-- Sequential processing of delivered messages: each message contributes
its own events; an exception escaping a per-message handler stops the
stream and is reported as the crash. -/
def processMessages (C : Ctors) (parseXml : String → Except JsErr Json) :
    List (MsgHeaders × StreamOutcome) → List Emitted × Option JsErr
  | [] => ([], none)
  | (h, o) :: rest =>
      match handleOutcome C parseXml h o with
      | .error e => ([], some e)
      | .ok evs =>
          let p := processMessages C parseXml rest
          (evs ++ p.1, p.2)

/-- Reconnect policy record passed to the failover connection factory. -/
structure ReconnectOptions where
  initialReconnectDelay : Nat
  maxReconnectDelay : Nat
  useExponentialBackOff : Bool
  maxReconnects : Nat
  randomize : Bool
deriving Repr, DecidableEq

/-- The literal reconnect policy `connect` builds (`darwin.js` lines
173-179). -/
def reconnectOptions : ReconnectOptions :=
  { initialReconnectDelay := 10
    maxReconnectDelay := 30000
    useExponentialBackOff := true
    maxReconnects := 30
    randomize := false }

/-- Modelled from the spec: the backoff loop itself lives in the external
failover connection factory (stompit), not in this repository. Per the
specification, with the exponential flag set the delay doubles from the
initial delay on each consecutive transport failure, capped at the maximum
delay; `backoffDelay o n` is the delay before attempt `n + 1` after `n`
consecutive failures. -/
def backoffDelay (o : ReconnectOptions) (n : Nat) : Nat :=
  min (o.initialReconnectDelay * 2 ^ n) o.maxReconnectDelay

/-- Modelled from the spec: the failover factory attempts a reconnect only
while the consecutive-failure count is below the configured maximum. -/
def attemptAllowed (o : ReconnectOptions) (n : Nat) : Bool :=
  n < o.maxReconnects

/-- Modelled from the spec: a raw value the XML-to-structure collaborator
may produce for a text node before per-field coercion — the source text
itself, or a numeric reinterpretation of a numeric-looking text. -/
inductive XmlRaw where
  | text (s : String)
  | numeric (n : Nat)
deriving Repr, DecidableEq

/-- JavaScript `String(value)` on such a raw value. -/
def jsString : XmlRaw → String
  | .text s => s
  | .numeric n => toString n

/-- Numeric reinterpretation an uncoerced conversion could apply to a
numeric-looking text: leading zeros are lost. -/
def autoNumeric (s : String) : String :=
  match s.toNat? with
  | some n => toString n
  | none => s

/-- Modelled from the spec: the XML-to-structure primitive applies the
configured per-field coercion hook during conversion; `connect` registers
`value => String(value)` for every field literally named `trainId`
(`darwin.js` lines 245-248), and the hook receives the source text. -/
def convertField (k : String) (rawText : String) : Json :=
  if k = "trainId" then Json.str (jsString (XmlRaw.text rawText)) else Json.str rawText

theorem expBindOk {α β : Type} (a : α) (f : α → Except JsErr β) :
    (Except.ok a : Except JsErr α).bind f = f a := rfl

theorem expBindErr {α β : Type} (e : JsErr) (f : α → Except JsErr β) :
    (Except.error e : Except JsErr α).bind f = .error e := rfl

theorem mbindOk {α β : Type} (a : α) (f : α → Except JsErr β) :
    (Except.ok a >>= f : Except JsErr β) = f a := rfl

theorem mbindErr {α β : Type} (e : JsErr) (f : α → Except JsErr β) :
    ((Except.error e : Except JsErr α) >>= f) = Except.error e := rfl

/-- Sample domain constructors that wrap their argument and never throw. -/
def sampleCtors : Ctors where
  trainStatus x := .ok ⟨"TrainStatus", x⟩
  schedule x := .ok ⟨"Schedule", x⟩
  association x := .ok ⟨"Association", x⟩
  trainOrder x := .ok ⟨"TrainOrder", x⟩
  stationMessage x := .ok ⟨"StationMessage", x⟩

/-- Sample domain constructors that throw on every input, exercising the
failure path of domain-object construction. -/
def failingCtors : Ctors where
  trainStatus _ := .error (.ctorError "bad")
  schedule _ := .error (.ctorError "bad")
  association _ := .error (.ctorError "bad")
  trainOrder _ := .error (.ctorError "bad")
  stationMessage _ := .error (.ctorError "bad")

/-- Sample update-record sub-structure with every field the classifier
reads. -/
def sampleUR : Json :=
  Json.obj [("updateOrigin", Json.str "O"), ("requestID", Json.str "I"),
    ("requestSource", Json.str "S"), ("TS", Json.str "a"),
    ("schedule", Json.str "b"), ("association", Json.str "c"),
    ("trainOrder", Json.str "d"), ("OW", Json.str "e")]

/-- Sample `Pport` envelope. -/
def samplePport : Json := Json.obj [("ts", Json.str "T"), ("uR", sampleUR)]

/-- Sample minimally valid transformed record. -/
def sampleRecord : Json := Json.obj [("Pport", samplePport)]

/-- Sample XML-conversion collaborator returning a fixed record. -/
def sampleParseXml : String → Except JsErr Json := fun _ => .ok sampleRecord

/-- C1: for each of the five recognized comma-terminated type tokens and
every record carrying the listed sub-structures, `getMessage` returns the
correspondingly named event whose payload takes `ts` from `Pport.ts`,
`origin` from `Pport.uR.updateOrigin`, `id` from `Pport.uR.requestID` and
`source` from `Pport.uR.requestSource` where listed, and whose domain
object is the corresponding opaque constructor applied to the listed
sub-structure; every other type string yields `unhandledMessage` with the
untouched record. -/
theorem claim_C1_thm (C : Ctors) (m p u : Json)
    (tsv originv idv sourcev tsArg schedArg assocArg ordArg owArg : Option Json)
    (d1 d2 d3 d4 d5 : DomainObj)
    (hP : getProp (some m) "Pport" = .ok (some p))
    (hts : getProp (some p) "ts" = .ok tsv)
    (hu : getProp (some p) "uR" = .ok (some u))
    (horg : getProp (some u) "updateOrigin" = .ok originv)
    (hid : getProp (some u) "requestID" = .ok idv)
    (hsrc : getProp (some u) "requestSource" = .ok sourcev)
    (hTS : getProp (some u) "TS" = .ok tsArg)
    (hsch : getProp (some u) "schedule" = .ok schedArg)
    (hassoc : getProp (some u) "association" = .ok assocArg)
    (hord : getProp (some u) "trainOrder" = .ok ordArg)
    (hOW : getProp (some u) "OW" = .ok owArg)
    (hd1 : C.trainStatus tsArg = .ok d1)
    (hd2 : C.schedule schedArg = .ok d2)
    (hd3 : C.association assocArg = .ok d3)
    (hd4 : C.trainOrder ordArg = .ok d4)
    (hd5 : C.stationMessage owArg = .ok d5) :
    getMessage C "TRAINSTATUS," m =
        .ok ("trainStatus", .trainStatus tsv d1 originv) ∧
      getMessage C "SCHEDULE," m =
        .ok ("schedule", .schedule idv tsv d2 originv sourcev) ∧
      getMessage C "ASSOCIATION," m =
        .ok ("association", .association idv tsv d3 originv sourcev) ∧
      getMessage C "TRAINORDER," m =
        .ok ("trainOrder", .trainOrder idv tsv d4 originv sourcev) ∧
      getMessage C "STATIONMESSAGE," m =
        .ok ("stationMessage", .stationMessage tsv d5 originv) ∧
      ∀ t, ¬(t = "TRAINSTATUS," ∨ t = "SCHEDULE," ∨ t = "ASSOCIATION," ∨
          t = "TRAINORDER," ∨ t = "STATIONMESSAGE,") →
        getMessage C t m = .ok ("unhandledMessage", .unhandled m) := by
  refine ⟨?_, ?_, ?_, ?_, ?_, ?_⟩
  · unfold getMessage
    rw [if_pos rfl]
    simp only [propPath, hP, hts, hu, horg, hTS, hd1, expBindOk, mbindOk]
    rfl
  · unfold getMessage
    rw [if_neg (by decide), if_pos rfl]
    simp only [propPath, hP, hts, hu, horg, hid, hsrc, hsch, hd2, expBindOk, mbindOk]
    rfl
  · unfold getMessage
    rw [if_neg (by decide), if_neg (by decide), if_pos rfl]
    simp only [propPath, hP, hts, hu, horg, hid, hsrc, hassoc, hd3, expBindOk, mbindOk]
    rfl
  · unfold getMessage
    rw [if_neg (by decide), if_neg (by decide), if_neg (by decide), if_pos rfl]
    simp only [propPath, hP, hts, hu, horg, hid, hsrc, hord, hd4, expBindOk, mbindOk]
    rfl
  · unfold getMessage
    rw [if_neg (by decide), if_neg (by decide), if_neg (by decide), if_neg (by decide),
      if_pos rfl]
    simp only [propPath, hP, hts, hu, horg, hOW, hd5, expBindOk, mbindOk]
    rfl
  · intro t ht
    push_neg at ht
    unfold getMessage
    rw [if_neg ht.1, if_neg ht.2.1, if_neg ht.2.2.1, if_neg ht.2.2.2.1, if_neg ht.2.2.2.2]

/-- Witness for C1 at the sample record and sample constructors. -/
theorem claim_C1_wit :
    getMessage sampleCtors "TRAINSTATUS," sampleRecord =
        .ok ("trainStatus", .trainStatus (some (Json.str "T"))
          ⟨"TrainStatus", some (Json.str "a")⟩ (some (Json.str "O"))) ∧
      getMessage sampleCtors "SCHEDULE," sampleRecord =
        .ok ("schedule", .schedule (some (Json.str "I")) (some (Json.str "T"))
          ⟨"Schedule", some (Json.str "b")⟩ (some (Json.str "O")) (some (Json.str "S"))) ∧
      getMessage sampleCtors "STATIONMESSAGE," sampleRecord =
        .ok ("stationMessage", .stationMessage (some (Json.str "T"))
          ⟨"StationMessage", some (Json.str "e")⟩ (some (Json.str "O"))) ∧
      getMessage sampleCtors "TRAINSTATUS" sampleRecord =
        .ok ("unhandledMessage", .unhandled sampleRecord) := by
  have h := claim_C1_thm sampleCtors sampleRecord samplePport sampleUR
    (some (Json.str "T")) (some (Json.str "O")) (some (Json.str "I")) (some (Json.str "S"))
    (some (Json.str "a")) (some (Json.str "b")) (some (Json.str "c")) (some (Json.str "d"))
    (some (Json.str "e"))
    ⟨"TrainStatus", some (Json.str "a")⟩ ⟨"Schedule", some (Json.str "b")⟩
    ⟨"Association", some (Json.str "c")⟩ ⟨"TrainOrder", some (Json.str "d")⟩
    ⟨"StationMessage", some (Json.str "e")⟩
    rfl rfl rfl rfl rfl rfl rfl rfl rfl rfl rfl rfl rfl rfl rfl rfl
  exact ⟨h.1, h.2.1, h.2.2.2.2.1, h.2.2.2.2.2 "TRAINSTATUS" (by decide)⟩

/-- C8: classification is a pure, deterministic function of the type
header and the decoded record — equal inputs give equal classifier
results, and the embedding is a pure function, mutating no state. -/
theorem claim_C8_thm (C : Ctors) (t1 t2 : String) (m1 m2 : Json)
    (ht : t1 = t2) (hm : m1 = m2) :
    getMessage C t1 m1 = getMessage C t2 m2 := by
  rw [ht, hm]

/-- Witness for C8 at a concrete invocation. -/
theorem claim_C8_wit :
    getMessage sampleCtors "SCHEDULE," sampleRecord =
      getMessage sampleCtors "SCHEDULE," sampleRecord :=
  claim_C8_thm sampleCtors "SCHEDULE," "SCHEDULE," sampleRecord sampleRecord rfl rfl

/-- C10: for every type string other than the five comma-terminated
tokens, and for every record whatsoever (with or without a `Pport`),
`getMessage` returns normally with the `unhandledMessage` event and the
untouched record; only the five recognized branches can throw. -/
theorem claim_C10_thm (C : Ctors) (t : String) (m : Json)
    (h : ¬(t = "TRAINSTATUS," ∨ t = "SCHEDULE," ∨ t = "ASSOCIATION," ∨
        t = "TRAINORDER," ∨ t = "STATIONMESSAGE,")) :
    getMessage C t m = .ok ("unhandledMessage", .unhandled m) := by
  push_neg at h
  unfold getMessage
  rw [if_neg h.1, if_neg h.2.1, if_neg h.2.2.1, if_neg h.2.2.2.1, if_neg h.2.2.2.2]

/-- Witness for C10: the comma-free token `TRAINSTATUS` is not recognized,
and a record without `Pport` is returned untouched. -/
theorem claim_C10_wit :
    getMessage sampleCtors "TRAINSTATUS" Json.null =
      .ok ("unhandledMessage", .unhandled Json.null) :=
  claim_C10_thm sampleCtors "TRAINSTATUS" Json.null (by decide)

/-- Counterexample to C2 as stated: `replaceKeys` operates on the
serialized JSON text, so a string value equal to the Location marker is
rewritten to `locations` — string values are not preserved. -/
theorem claim_C2_cex :
    replaceKeys (Json.obj [("a", Json.str "ns3:Location")]) =
        some (Json.obj [("a", Json.str "locations")]) ∧
      ¬replaceKeys (Json.obj [("a", Json.str "ns3:Location")]) =
        some (Json.obj [("a", Json.str "ns3:Location")]) := by
  refine ⟨rfl, fun hbad => ?_⟩
  have h1 : replaceKeys (Json.obj [("a", Json.str "ns3:Location")]) =
      some (Json.obj [("a", Json.str "locations")]) := rfl
  rw [h1] at hbad
  exact absurd hbad (by simp)

/-- C2 (amended): for every JSON-compatible tree whose strings contain no
quote or backslash characters and whose keys remain distinct after
rewriting, `replaceKeys` renames every key equal to `ns3:Location` to
`locations` and strips a leading `ns` digit `:` prefix from every other
key at every depth, preserving all other structure — except that string
values are subjected to the very same token rewriting, because the
replacement works on the serialized text. `rewriteTree` is exactly that
tree transform. -/
theorem claim_C2_thm (j : Json) (hp : plainJson j = true)
    (hn : nodupJson (rewriteTree j) = true) :
    replaceKeys j = some (rewriteTree j) :=
  replaceKeys_eq j hp hn

set_option maxRecDepth 8000 in
/-- Witness for C2 (amended) on a concrete prefixed tree. -/
theorem claim_C2_wit :
    replaceKeys (Json.obj [("ns5:a", Json.arr [Json.str "x", Json.null]),
        ("ns3:Location", Json.obj [("b", Json.str "ns7:y")])]) =
      some (rewriteTree (Json.obj [("ns5:a", Json.arr [Json.str "x", Json.null]),
        ("ns3:Location", Json.obj [("b", Json.str "ns7:y")])])) :=
  claim_C2_thm (Json.obj [("ns5:a", Json.arr [Json.str "x", Json.null]),
    ("ns3:Location", Json.obj [("b", Json.str "ns7:y")])]) (by rfl) (by rfl)

/-- C3: for a successfully decoded message, a failure thrown during
classification or domain-object construction is caught at the boundary
between decode-complete and event-emission and reported as exactly one
`messageErr` event carrying the error and `JSON.stringify` of the
transformed record; the handler returns normally and subsequent messages
are processed exactly as if the failing message had not occurred. -/
theorem claim_C3_thm (C : Ctors) (px : String → Except JsErr Json) (h : MsgHeaders)
    (chunks : List String) (x mJSON : Json) (e : JsErr)
    (hx : px (String.join chunks) = .ok x)
    (hrk : replaceKeys x = some mJSON)
    (hg : getMessage C h.FilterHeaderLevel mJSON = .error e)
    (rest : List (MsgHeaders × StreamOutcome)) :
    handleOutcome C px h (.ended chunks) =
        .ok [.messageErrEvent e (stringifyJson mJSON)] ∧
      processMessages C px ((h, .ended chunks) :: rest) =
        (Emitted.messageErrEvent e (stringifyJson mJSON) :: (processMessages C px rest).1,
          (processMessages C px rest).2) := by
  have h1 : handleOutcome C px h (.ended chunks) =
      .ok [.messageErrEvent e (stringifyJson mJSON)] := by
    simp only [handleOutcome, onStreamEnd, hx, expBindOk, hrk, hg]
  refine ⟨h1, ?_⟩
  simp only [processMessages, h1]
  rfl

set_option maxRecDepth 8000 in
/-- Witness for C3: failing constructors on the sample record produce the
`messageErr` event and leave a following message unaffected. -/
theorem claim_C3_wit :
    handleOutcome failingCtors sampleParseXml ⟨"SCHEDULE,"⟩ (.ended ["x"]) =
        .ok [.messageErrEvent (.ctorError "bad") (stringifyJson sampleRecord)] ∧
      processMessages failingCtors sampleParseXml
          ((⟨"SCHEDULE,"⟩, .ended ["x"]) :: [(⟨"SCHEDULE,"⟩, .errored ["y"] .jsonError)]) =
        (Emitted.messageErrEvent (.ctorError "bad") (stringifyJson sampleRecord) ::
            (processMessages failingCtors sampleParseXml
              [(⟨"SCHEDULE,"⟩, .errored ["y"] .jsonError)]).1,
          (processMessages failingCtors sampleParseXml
            [(⟨"SCHEDULE,"⟩, .errored ["y"] .jsonError)]).2) :=
  claim_C3_thm failingCtors sampleParseXml ⟨"SCHEDULE,"⟩ ["x"] sampleRecord sampleRecord
    (.ctorError "bad") rfl rfl rfl [(⟨"SCHEDULE,"⟩, .errored ["y"] .jsonError)]

/-- C4: on a decompression-stream error, nothing at all is emitted when no
decoded chunk had been accumulated, and exactly one error event carrying
the error and the original message headers is emitted otherwise; either
way the handler returns normally, so the faulty message is dropped and the
stream continues. -/
theorem claim_C4_thm (C : Ctors) (px : String → Except JsErr Json) (h : MsgHeaders)
    (chunks : List String) (e : JsErr) :
    handleOutcome C px h (.errored chunks e) =
      .ok (if 0 < chunks.length then [.errorEvent e (some h)] else []) := rfl

/-- Recognizer for the one tolerated silent case: the decompression
stream errored having produced no data. -/
def isEmptyErrored : StreamOutcome → Bool
  | .errored [] _ => true
  | _ => false

/-- Emission discipline on normal completion: whenever the per-message
handler completes normally it has emitted exactly one event — a typed
event or one error notification, never both and never more — except for
a decompression stream that erred with no decoded data, which emits
nothing at all. (A handler that does not complete normally is the crash
case treated separately below.) -/
theorem handleOutcome_ok_single (C : Ctors) (px : String → Except JsErr Json) (h : MsgHeaders)
    (o : StreamOutcome) (evs : List Emitted)
    (hok : handleOutcome C px h o = .ok evs) :
    evs.length = 1 ∨ (evs = [] ∧ isEmptyErrored o = true) := by
  cases o with
  | errored chunks e =>
      simp only [handleOutcome, onStreamError] at hok
      cases chunks with
      | nil =>
          simp only [List.length_nil] at hok
          simp only [Nat.lt_irrefl, if_false] at hok
          right
          injection hok with hev
          exact ⟨hev.symm, rfl⟩
      | cons c cs =>
          simp only [List.length_cons] at hok
          rw [if_pos (by omega)] at hok
          injection hok with hev
          left
          rw [← hev]
          rfl
  | ended chunks =>
      simp only [handleOutcome, onStreamEnd] at hok
      cases hx : px (String.join chunks) with
      | error e2 =>
          rw [hx, expBindErr] at hok
          exact absurd hok (by simp)
      | ok x =>
          rw [hx, expBindOk] at hok
          cases hr : replaceKeys x with
          | none =>
              simp only [hr] at hok
              exact Except.noConfusion hok
          | some mj =>
              simp only [hr] at hok
              cases hg : getMessage C h.FilterHeaderLevel mj with
              | ok ev =>
                  simp only [hg] at hok
                  injection hok with hev
                  left
                  rw [← hev]
                  rfl
              | error e2 =>
                  simp only [hg] at hok
                  injection hok with hev
                  left
                  rw [← hev]
                  rfl

/-- Sample behavior of the XML-conversion collaborator on a decompressed
payload that is not well-formed XML: `xml2json.toJson` throws. -/
def badXmlConvert : String → Except JsErr Json :=
  fun _ => .error (.xmlError "not well-formed")

/-- C5: the claimed invariant — every RawMessage yields exactly one typed
event or exactly one error notification, never both and never neither,
the only exception being a decompression stream that silently closes with
no data — is violated by the code: the XML conversion runs before the
`try` (`darwin.js` line 243), so a message whose stream ends after
delivering data that is not well-formed XML makes the `end` handler
throw. For every conversion collaborator that throws on the joined
payload, the handler escapes with that exception, no event of any kind is
emitted, processing of the delivery stops, and the outcome is not the one
permitted silent-close exception. -/
theorem claim_C5_thm (C : Ctors) (px : String → Except JsErr Json) (h : MsgHeaders)
    (c0 : String) (chunks : List String) (e : JsErr)
    (hx : px (String.join (c0 :: chunks)) = .error e) :
    handleOutcome C px h (.ended (c0 :: chunks)) = .error e ∧
      processMessages C px [(h, .ended (c0 :: chunks))] = ([], some e) ∧
      isEmptyErrored (.ended (c0 :: chunks)) = false := by
  have h1 : handleOutcome C px h (.ended (c0 :: chunks)) = .error e := by
    simp only [handleOutcome, onStreamEnd, hx, expBindErr]
  refine ⟨h1, ?_, rfl⟩
  simp only [processMessages, h1]

/-- Witness for C5's failing input: a delivered chunk that is not
well-formed XML crashes the handler and nothing at all is emitted. -/
theorem claim_C5_wit :
    handleOutcome sampleCtors badXmlConvert ⟨"SCHEDULE,"⟩ (.ended ["<not-xml"]) =
        .error (.xmlError "not well-formed") ∧
      processMessages sampleCtors badXmlConvert [(⟨"SCHEDULE,"⟩, .ended ["<not-xml"])] =
        ([], some (.xmlError "not well-formed")) ∧
      isEmptyErrored (.ended ["<not-xml"]) = false :=
  claim_C5_thm sampleCtors badXmlConvert ⟨"SCHEDULE,"⟩ "<not-xml" []
    (.xmlError "not well-formed") rfl

/-- C6: the reconnect policy installed by `connect` is exponential backoff
from an initial delay of 10 doubling up to the maximum delay 30000,
jitter disabled, capped at 30 attempts; after `n` consecutive failures the
delay before attempt `n + 1` is the doubling formula applied `n` times
capped at the maximum, and no attempt is made once the maximum attempt
count is exhausted. -/
theorem claim_C6_thm :
    reconnectOptions.initialReconnectDelay = 10 ∧
      reconnectOptions.maxReconnectDelay = 30000 ∧
      reconnectOptions.useExponentialBackOff = true ∧
      reconnectOptions.randomize = false ∧
      reconnectOptions.maxReconnects = 30 ∧
      backoffDelay reconnectOptions 0 = 10 ∧
      (∀ n, backoffDelay reconnectOptions n = min (10 * 2 ^ n) 30000) ∧
      (∀ n, backoffDelay reconnectOptions n ≤ 30000) ∧
      (∀ n, 30 ≤ n → attemptAllowed reconnectOptions n = false) := by
  refine ⟨rfl, rfl, rfl, rfl, rfl, rfl, fun n => rfl, fun n => min_le_right _ _,
    fun n hn => ?_⟩
  simp only [attemptAllowed, reconnectOptions, decide_eq_false_iff_not]
  omega

/-- Witness for C6 at the attempt bound. -/
theorem claim_C6_wit : attemptAllowed reconnectOptions 30 = false :=
  claim_C6_thm.2.2.2.2.2.2.2.2 30 (by omega)

/-- C7: every field literally named `trainId` is coerced through
JavaScript `String` during XML-to-structure conversion, so the stored
value is the source text verbatim — leading zeros and non-numeric train
identifiers are never lost. -/
theorem claim_C7_thm (k : String) (rawText : String) (hk : k = "trainId") :
    convertField k rawText = Json.str rawText ∧
      jsString (XmlRaw.text rawText) = rawText := by
  subst hk
  exact ⟨by simp [convertField, jsString], rfl⟩

/-- Witness for C7 on a zero-padded identifier (contrast: the uncoerced
numeric reinterpretation would drop the leading zero). -/
theorem claim_C7_wit :
    convertField "trainId" "0123" = Json.str "0123" ∧
      jsString (XmlRaw.text "0123") = "0123" :=
  claim_C7_thm "trainId" "0123" rfl

/-- C9: a non-null subscription error produces exactly one error event
carrying that error and nothing else — no decoding or classification is
attempted for the delivery (the result does not depend on the message
outcome at all), there is no retry, and the handler returns normally. -/
theorem claim_C9_thm (C : Ctors) (px : String → Except JsErr Json) (e : JsErr)
    (h : MsgHeaders) (o : StreamOutcome) :
    onSubMessage C px (some e) h o = .ok [.errorEvent e none] := rfl
